import Mathlib

set_option maxRecDepth 8000

/- Shallow embedding of main_denoising.py from the denoising_DIHARD18
   repository (chunked spectral-masking speech enhancement).

   Modelling conventions:
   * numpy float arrays are modelled as lists of rationals; 2-D arrays are
     lists of rows; numpy broadcasting of binary elementwise operations is
     modelled exactly (a size-1 axis is repeated, incompatible shapes raise,
     modelled as none).
   * Components of the repository that live outside main_denoising.py
     (utils.wav2logspec, utils.logspec2wav, decode_model) are parameters of
     the pipeline definitions, mirroring the spec, which treats them as
     opaque component contracts; utils.peak_normalization is modelled from
     the spec as a concrete definition.
   * np.log is kept as a function parameter lg, because exact rational
     arithmetic has no natural logarithm; only its elementwise application
     matters for the embedded code.
   * Python exceptions become explicit error values (Except / Option);
     process-level control flow (processify, the batch loop) is embedded as
     explicit event traces. -/

namespace Denoising

/-- Expected sample rate in Hz of the input WAV, source constant SR. -/
def SR : Nat := 16000

/-- Analysis window length in samples, source constant WL. -/
def WL : Nat := 512

/-- Half window length, source constant WL2 = WL // 2. -/
def WL2 : Nat := WL / 2

/-- Number of positive frequencies in the FFT output, source constant NFREQS. -/
def NFREQS : Nat := 257

/-- Two dimensional numpy style array: a list of rows. -/
abbrev Mat := List (List ℚ)

/-- Number of columns: length of the first row (0 for an empty array). -/
def cols (m : Mat) : Nat := (m.head?.map List.length).getD 0

/-- Entry access, with 0 as the out of range default. -/
def get2 (m : Mat) (i j : Nat) : ℚ := (m.getD i []).getD j 0

/-- numpy broadcasting of one axis: sizes are compatible when they are equal
    or one of them is 1; the result size is the larger one. -/
def bcDim (a b : Nat) : Option Nat :=
  if a = b then some a
  else if a = 1 then some b
  else if b = 1 then some a
  else none

/-- numpy elementwise binary operation on two 2-D arrays with broadcasting;
    none models the ValueError numpy raises on incompatible shapes. -/
def bcast2 (op : ℚ → ℚ → ℚ) (x y : Mat) : Option Mat :=
  match bcDim x.length y.length, bcDim (cols x) (cols y) with
  | some r, some c =>
      some ((List.range r).map (fun i => (List.range c).map (fun j =>
        op (get2 x (if x.length = 1 then 0 else i) (if cols x = 1 then 0 else j))
           (get2 y (if y.length = 1 then 0 else i) (if cols y = 1 then 0 else j)))))
  | _, _ => none

/-- MVN of source line 205: (noisy_htkdata - global_mean) / global_var with
    numpy broadcasting; the global mean and variance rows are 1 x n arrays as
    loaded from the statistics file. -/
def cmvnStep (frames : Mat) (gmean gvar : List ℚ) : Option Mat :=
  (bcast2 (fun a b => a - b) frames [gmean]).bind
    (fun diffed => bcast2 (fun a b => a / b) diffed [gvar])

/-- Masking of source line 224: noisy_htkdata + np.log(irm), where lg stands
    for the elementwise natural logarithm np.log. -/
def maskLPS (lg : ℚ → ℚ) (lps irm : Mat) : Option Mat :=
  bcast2 (fun a b => a + b) lps (irm.map (List.map lg))

/-- Lookup by file name in the modelled temporary directory contents. -/
def lookupFile (fs : List (String × Mat)) (name : String) : Option Mat :=
  match fs with
  | [] => none
  | (n, v) :: rest => if n = name then some v else lookupFile rest name

/-- Python exceptions the chunk pipeline itself can raise. -/
inductive DErr where
  | zeroDivisionError
  | broadcastMismatch
  | concatEmpty
  | readFailure
  deriving DecidableEq

/-- One iteration of the chunk loop of denoise_wav (source lines 179-231) on a
    chunk temp.  A chunk shorter than WL2 samples is appended unchanged.
    Otherwise: w2l models utils.wav2logspec (feature analysis), the features
    are normalized (cmvnStep), written to the temporary directory tmp_dir
    (write_htk, modelled as an association list), read back by the mask
    estimator model (decode_model reading the scp entry), masked in the log
    domain (maskLPS), and resynthesized by l2w, which models
    utils.logspec2wav: its second argument is the original unmasked chunk,
    which supplies the phase for synthesis. -/
def processChunk (model : Mat → Mat) (lg : ℚ → ℚ) (w2l : List ℚ → Mat)
    (l2w : Mat → List ℚ → List ℚ) (gmean gvar : List ℚ)
    (tmp_dir : String) (temp : List ℚ) : Except DErr (List ℚ) :=
  if temp.length < WL2 then .ok temp
  else
    let noisy_normed_lps_fn := tmp_dir ++ "/noisy_normed_lps.htk"
    let noisy_htkdata := w2l temp
    match cmvnStep noisy_htkdata gmean gvar with
    | none => .error .broadcastMismatch
    | some normed_noisy =>
      let fs := [(noisy_normed_lps_fn, normed_noisy)]
      match lookupFile fs noisy_normed_lps_fn with
      | none => .error .readFailure
      | some feats =>
        let irm := model feats
        match maskLPS lg noisy_htkdata irm with
        | none => .error .broadcastMismatch
        | some masked_lps => .ok (l2w masked_lps temp)

/-- Modelled from the spec: utils.peak_normalization is not part of the
    embedded source file; per the spec it scales the waveform so that the
    maximum absolute sample reaches, but does not exceed, full scale.  The
    sample count is unchanged. -/
def peak_normalization (w : List ℚ) : List ℚ :=
  let m := (w.map (fun x => |x|)).foldr max 0
  if m = 0 then w else w.map (fun x => x * (32767 / m))

/-- Chunk length in samples, source line 174:
    int(truncate_minutes * rate * 60); the int() truncation agrees with the
    rational floor on the nonnegative values the pipeline uses. -/
def chunkLength (truncate_minutes : ℚ) (rate : Nat) : Nat :=
  (Rat.floor (truncate_minutes * rate * 60)).toNat

/-- Ceiling division, source line 175: int(math.ceil(size / chunk_length))
    for a positive chunk length. -/
def ceilDiv (n L : Nat) : Nat := (n + L - 1) / L

/-- Samples of the 0-based i-th chunk, source lines 182-184:
    wav_data[i*L : i*L + L]. -/
def chunkAt (L : Nat) (w : List ℚ) (i : Nat) : List ℚ := (w.drop (i * L)).take L

/-- All chunks of the waveform in order. -/
def chunksOf (L : Nat) (w : List ℚ) : List (List ℚ) :=
  (List.range (ceilDiv w.length L)).map (chunkAt L w)

/-- Conversion to int16, source line 233: astype(np.int16) truncates toward
    zero (values stay in range after peak normalization). -/
def quantize (x : ℚ) : Int := if 0 ≤ x then ⌊x⌋ else -⌊-x⌋

/-- Chunk loop of source lines 177-231: enhanced chunks are accumulated in
    order and the first exception aborts the loop and propagates. -/
def runChunks (step : Nat → Except DErr (List ℚ)) :
    List Nat → Except DErr (List (List ℚ))
  | [] => .ok []
  | i :: rest =>
    match step i with
    | .error e => .error e
    | .ok y =>
      match runChunks step rest with
      | .error e => .error e
      | .ok ys => .ok (y :: ys)

/-- denoise_wav, source lines 133-235: peak-normalize, compute the chunk
    length (a zero chunk length makes the chunk-count division raise
    ZeroDivisionError), run the chunk loop, convert every chunk to int16 and
    concatenate (np.concatenate raises on an empty list).  tmpf i models the
    tempfile.mkdtemp result of iteration i. -/
def denoise_wav (model : Mat → Mat) (lg : ℚ → ℚ) (w2l : List ℚ → Mat)
    (l2w : Mat → List ℚ → List ℚ) (gmean gvar : List ℚ) (tmpf : Nat → String)
    (truncate_minutes : ℚ) (rate : Nat) (wav : List ℚ) :
    Except DErr (List Int) :=
  let wav_data := peak_normalization wav
  let L := chunkLength truncate_minutes rate
  if L = 0 then .error .zeroDivisionError
  else
    let total_chunks := ceilDiv wav_data.length L
    match runChunks
        (fun i => processChunk model lg w2l l2w gmean gvar (tmpf i)
          (chunkAt L wav_data i))
        (List.range total_chunks) with
    | .error e => .error e
    | .ok data_se =>
      if data_se.isEmpty then .error .concatEmpty
      else .ok ((data_se.map (List.map quantize)).flatten)

/-- A Python exception value: its type name and its message. -/
structure PyErr where
  ty : String
  msg : String
  deriving DecidableEq

/-- Worker side of processify, source lines 97-107: the wrapped call f x
    either returns a value or raises; .error carries the exception together
    with the formatted traceback string.  The worker puts the pair
    (ret, error) on the queue. -/
def process_func {A B : Type} (f : A → Except (PyErr × String) B) (x : A) :
    Option B × Option (String × String × String) :=
  match f x with
  | .ok r => (some r, none)
  | .error (e, tb) => (none, some (e.ty, e.msg, tb))

/-- Observable events of one processify call, in order: process start, the
    worker's queue put, the caller's queue get, the join of the worker
    process, and finally either a normal return or a re-raise. -/
inductive PEvent where
  | start
  | put
  | get
  | join
  | returned
  | raised
  deriving DecidableEq

/-- Caller side wrapper of processify, source lines 114-127: start the
    process, block on the queue, join the process, then either re-raise an
    exception of the original type with the message
    "original message (in subprocess)\n" followed by the traceback, or
    return the worker's result. -/
def processifyRun {A B : Type} (f : A → Except (PyErr × String) B) (x : A) :
    List PEvent × Except PyErr (Option B) :=
  match process_func f x with
  | (ret, none) =>
      ([PEvent.start, PEvent.put, PEvent.get, PEvent.join, PEvent.returned],
        .ok ret)
  | (_, some (ty, msgv, tb)) =>
      ([PEvent.start, PEvent.put, PEvent.get, PEvent.join, PEvent.raised],
        .error ⟨ty, msgv ++ " (in subprocess)\n" ++ tb⟩)

/-- Observable events of the batch loop of main_denoising. -/
inductive FEvent where
  | chFinished (ch : String)
  | chErrorReported (ch : String)
  | merged (file : String)
  deriving DecidableEq

/-- Per channel loop of main_denoising, source lines 321-330: each channel
    file is denoised; on an exception the failure is reported (utils.error)
    and the exception is then re-raised. -/
def channel_loop (denoise : String → Except PyErr Unit) :
    List String → List FEvent × Option PyErr
  | [] => ([], none)
  | ch :: rest =>
    match denoise ch with
    | .ok _ =>
      match channel_loop denoise rest with
      | (evs, err) => (FEvent.chFinished ch :: evs, err)
    | .error e => ([FEvent.chErrorReported ch], some e)

/-- File loop of main_denoising, source lines 266-346: every input file is
    split into channels (external conversion steps are modelled as
    succeeding), the channels are denoised, and on success the channel
    outputs are merged into this file's output (merged event).  An exception
    re-raised by the channel loop propagates out of the whole loop, ending
    the batch; the second component is the exception escaping
    main_denoising. -/
def main_denoising_run (denoise : String → Except PyErr Unit) :
    List (String × List String) → List FEvent × Option PyErr
  | [] => ([], none)
  | (f, chans) :: rest =>
    match channel_loop denoise chans with
    | (evs, some e) => (evs, some e)
    | (evs, none) =>
      match main_denoising_run denoise rest with
      | (evs2, err) => (evs ++ FEvent.merged f :: evs2, err)

/-! Helper lemmas shared by the claim theorems. -/

/-- The chunk length is the floor of the rational product. -/
theorem chunkLength_eq_floor (T : ℚ) (rate : Nat) :
    chunkLength T rate = (⌊T * rate * 60⌋).toNat := by
  rw [chunkLength, Rat.floor_def', ← Rat.floor_def]

/-- Reading an entry of a range-map list. -/
theorem getD_range_map {α : Type} (f : Nat → α) (d : α) {i n : Nat} (h : i < n) :
    ((List.range n).map f).getD i d = f i := by
  have hl : i < ((List.range n).map f).length := by simpa using h
  rw [List.getD_eq_getElem _ _ hl]
  simp

/-- Looking up the single written file succeeds. -/
theorem lookupFile_single (p : String) (v : Mat) :
    lookupFile [(p, v)] p = some v := by
  simp [lookupFile]

/-- Characterization of a failing axis broadcast. -/
theorem bcDim_eq_none_iff (a b : Nat) :
    bcDim a b = none ↔ ¬ (a = b ∨ a = 1 ∨ b = 1) := by
  unfold bcDim
  split <;> rename_i h1
  · simp [h1]
  · split <;> rename_i h2
    · simp [h2]
    · split <;> rename_i h3
      · simp [h3]
      · simp [h1, h2, h3]

/-- A 2-D broadcast fails exactly when one of the axis broadcasts fails. -/
theorem bcast2_eq_none (op : ℚ → ℚ → ℚ) (x y : Mat) :
    bcast2 op x y = none ↔
      (bcDim x.length y.length = none ∨ bcDim (cols x) (cols y) = none) := by
  unfold bcast2
  rcases bcDim x.length y.length with _ | r <;>
    rcases bcDim (cols x) (cols y) with _ | c <;> simp

/-- Characterization of a failing 2-D broadcast by the two shapes. -/
theorem bcast2_eq_none_iff (op : ℚ → ℚ → ℚ) (x y : Mat) :
    bcast2 op x y = none ↔
      ¬ ((x.length = y.length ∨ x.length = 1 ∨ y.length = 1)
        ∧ (cols x = cols y ∨ cols x = 1 ∨ cols y = 1)) := by
  rw [bcast2_eq_none, bcDim_eq_none_iff, bcDim_eq_none_iff]
  tauto

/-- Columns are unchanged by an elementwise map. -/
theorem cols_map_map (g : ℚ → ℚ) (m : Mat) :
    cols (m.map (List.map g)) = cols m := by
  cases m <;> simp [cols]

/-- Broadcasting a size against itself. -/
theorem bcDim_self (a : Nat) : bcDim a a = some a := by simp [bcDim]

/-- Broadcasting any size against a size-1 axis. -/
theorem bcDim_one_right (a : Nat) : bcDim a 1 = some a := by
  unfold bcDim
  split
  · simp_all
  · split <;> simp_all

/-- Reduction of a successful 2-D broadcast. -/
theorem bcast2_eq_some (op : ℚ → ℚ → ℚ) (x y : Mat) {r c : Nat}
    (h1 : bcDim x.length y.length = some r)
    (h2 : bcDim (cols x) (cols y) = some c) :
    bcast2 op x y
      = some ((List.range r).map (fun i => (List.range c).map (fun j =>
          op (get2 x (if x.length = 1 then 0 else i)
                (if cols x = 1 then 0 else j))
             (get2 y (if y.length = 1 then 0 else i)
                (if cols y = 1 then 0 else j))))) := by
  unfold bcast2
  rw [h1, h2]

/-- Entry of an array built from nested ranges. -/
theorem get2_mk (g : Nat → Nat → ℚ) {r c i j : Nat} (hi : i < r) (hj : j < c) :
    get2 ((List.range r).map (fun i =>
      (List.range c).map (fun j => g i j))) i j = g i j := by
  rw [get2, getD_range_map _ _ hi, getD_range_map _ _ hj]

/-- Broadcasting a rectangular array against a one-row array of the same
    width applies the operation rowwise. -/
theorem bcast2_rowvec (op : ℚ → ℚ → ℚ) (x : Mat) (v : List ℚ)
    (hx : x ≠ []) (hrect : ∀ row ∈ x, row.length = v.length) :
    ∃ z, bcast2 op x [v] = some z ∧ z.length = x.length ∧
      (∀ row ∈ z, row.length = v.length) ∧
      ∀ i j, i < x.length → j < v.length →
        get2 z i j = op (get2 x i j) (v.getD j 0) := by
  have hcols : cols x = v.length := by
    rcases x with _ | ⟨h, t⟩
    · exact absurd rfl hx
    · simpa [cols] using hrect h (by simp)
  have hv1 : cols ([v] : Mat) = v.length := by simp [cols]
  have h1 : bcDim x.length ([v] : Mat).length = some x.length := by
    simpa using bcDim_one_right x.length
  have h2 : bcDim (cols x) (cols ([v] : Mat)) = some v.length := by
    rw [hcols, hv1, bcDim_self]
  refine ⟨_, bcast2_eq_some op x [v] h1 h2, by simp, by simp, ?_⟩
  intro i j hi hj
  rw [get2_mk _ hi hj]
  have hrow : get2 ([v] : Mat) (if ([v] : Mat).length = 1 then 0 else i)
      (if cols ([v] : Mat) = 1 then 0 else j) = v.getD j 0 := by
    by_cases hv2 : v.length = 1
    · have hj0 : j = 0 := by omega
      simp [get2, hv1, hv2, hj0]
    · simp [get2, hv1, hv2]
  rw [hrow]
  congr 1
  by_cases hx1 : x.length = 1
  · have : i = 0 := by omega
    by_cases hc1 : cols x = 1
    · have hj0 : j = 0 := by rw [hcols] at hc1; omega
      simp [hx1, hc1, this, hj0]
    · simp [hx1, hc1, this]
  · by_cases hc1 : cols x = 1
    · have hj0 : j = 0 := by rw [hcols] at hc1; omega
      simp [hx1, hc1, hj0]
    · simp [hx1, hc1]

/-! Claim C2: pass-through threshold for short chunks. -/

/-- C2 counterexample: the claim says a chunk with fewer than 257 samples is
    passed through unmodified, but the source tests temp.shape[0] < WL2 with
    WL2 = 256, so a chunk of exactly 256 samples is spectrally processed: for
    an instantiation of the pipeline components its output differs from its
    input. -/
theorem c2_counterexample :
    (256 : Nat) < 257 ∧
    processChunk (fun m => m) (fun x => x) (fun _ => [[(1 : ℚ)]])
      (fun _ ref => ref.map (fun a => a + 1)) [0] [1] "t"
      (List.replicate 256 (0 : ℚ))
      ≠ .ok (List.replicate 256 (0 : ℚ)) := by
  constructor
  · decide
  · simp [processChunk, WL2, WL, cmvnStep, bcast2, bcDim, cols, get2, maskLPS,
      lookupFile]

/-- C2 amended: a chunk with fewer than WL2 = 256 samples (half the 512
    sample analysis window) is passed through exactly, with no spectral
    analysis, normalization, mask request or synthesis applied. -/
theorem c2_amended (model : Mat → Mat) (lg : ℚ → ℚ) (w2l : List ℚ → Mat)
    (l2w : Mat → List ℚ → List ℚ) (gmean gvar : List ℚ) (tmp : String)
    (temp : List ℚ) (h : temp.length < WL2) :
    processChunk model lg w2l l2w gmean gvar tmp temp = .ok temp := by
  simp [processChunk, h]

/-- C2 amended witness at a concrete 3-sample chunk. -/
theorem c2_amended_witness :
    ([(1 : ℚ), 2, 3].length < WL2) ∧
    processChunk (fun m => m) (fun x => x) (fun _ => [[(1 : ℚ)]])
      (fun _ ref => ref) [0] [1] "t" [(1 : ℚ), 2, 3] = .ok [(1 : ℚ), 2, 3] :=
  ⟨by decide,
    c2_amended (fun m => m) (fun x => x) (fun _ => [[(1 : ℚ)]])
      (fun _ ref => ref) [0] [1] "t" [(1 : ℚ), 2, 3] (by decide)⟩

/-! Claim C3: mask shape validation. -/

/-- C3 counterexample: the claim says the caller validates that the returned
    mask has the frame matrix shape and raises on a mismatch; in the source
    the only shape-sensitive step is the broadcast addition of line 224, so a
    broadcast-compatible mismatch (a 1 x 1 mask for a 2 x 1 frame matrix) is
    silently accepted and the chunk succeeds. -/
theorem c3_counterexample :
    processChunk (fun _ => [[(5 : ℚ)]]) (fun x => x)
      (fun _ => [[(1 : ℚ)], [2]]) (fun _ ref => ref) [0] [1] "t"
      (List.replicate 256 (0 : ℚ)) = .ok (List.replicate 256 (0 : ℚ))
    ∧ (([[(5 : ℚ)]] : Mat).length, cols [[(5 : ℚ)]])
        ≠ (([[(1 : ℚ)], [2]] : Mat).length, cols [[(1 : ℚ)], [2]]) := by
  constructor
  · simp [processChunk, WL2, WL, cmvnStep, bcast2, bcDim, cols, get2, maskLPS,
      lookupFile, List.range_succ, Function.comp]
  · decide

/-- C3 amended: there is no explicit shape validation; the masking addition
    fails (numpy ValueError) exactly when the mask shape is not
    numpy-broadcast-compatible with the frame matrix shape, and reaching the
    masking step that failure is the only broadcastMismatch error the caller
    can raise after the mask worker returns: broadcast-compatible mismatches
    are silently accepted. -/
theorem c3_amended :
    (∀ (lg : ℚ → ℚ) (lps irm : Mat),
      maskLPS lg lps irm = none ↔
        ¬ ((lps.length = irm.length ∨ lps.length = 1 ∨ irm.length = 1)
          ∧ (cols lps = cols irm ∨ cols lps = 1 ∨ cols irm = 1)))
    ∧ (∀ (model : Mat → Mat) (lg : ℚ → ℚ) (w2l : List ℚ → Mat)
        (l2w : Mat → List ℚ → List ℚ) (gmean gvar : List ℚ) (tmp : String)
        (temp : List ℚ) (N : Mat),
        ¬ temp.length < WL2 →
        cmvnStep (w2l temp) gmean gvar = some N →
        (processChunk model lg w2l l2w gmean gvar tmp temp
            = .error .broadcastMismatch
          ↔ maskLPS lg (w2l temp) (model N) = none)) := by
  constructor
  · intro lg lps irm
    rw [maskLPS, bcast2_eq_none_iff]
    simp [cols_map_map]
  · intro model lg w2l l2w gmean gvar tmp temp N h hc
    cases hm : maskLPS lg (w2l temp) (model N) <;>
      simp [processChunk, h, hc, lookupFile_single, hm]

/-- C3 amended witness: a concrete non-broadcastable mask (3 x 3 against
    2 x 1 frames) makes the chunk fail with the broadcast error. -/
theorem c3_amended_witness :
    (¬ (List.replicate 256 (0 : ℚ)).length < WL2)
    ∧ cmvnStep ([[(1 : ℚ)], [2]]) [0] [1] = some [[(1 : ℚ)], [2]]
    ∧ (processChunk (fun _ => [[(1 : ℚ), 2, 3], [4, 5, 6], [7, 8, 9]])
        (fun x => x) (fun _ => [[(1 : ℚ)], [2]]) (fun _ ref => ref) [0] [1]
        "t" (List.replicate 256 (0 : ℚ)) = .error .broadcastMismatch
      ↔ maskLPS (fun x => x) [[(1 : ℚ)], [2]]
          ((fun _ => [[(1 : ℚ), 2, 3], [4, 5, 6], [7, 8, 9]])
            ([[(1 : ℚ)], [2]])) = none) := by
  have h1 : ¬ (List.replicate 256 (0 : ℚ)).length < WL2 := by
    simp [WL2, WL]
  have h2 : cmvnStep ([[(1 : ℚ)], [2]]) [0] [1] = some [[(1 : ℚ)], [2]] := by
    simp [cmvnStep, bcast2, bcDim, cols, get2, List.range_succ, Function.comp]
  exact ⟨h1, h2,
    c3_amended.2 (fun _ => [[(1 : ℚ), 2, 3], [4, 5, 6], [7, 8, 9]])
      (fun x => x) (fun _ => [[(1 : ℚ)], [2]]) (fun _ ref => ref) [0] [1] "t"
      (List.replicate 256 (0 : ℚ)) [[(1 : ℚ)], [2]] h1 h2⟩

/-! Claim C5: the mask worker protocol of processify. -/

/-- C5: for every wrapped call, the worker events happen in the order start,
    put, get, join, so the worker is joined before control returns or an
    exception propagates; on success the worker result is returned; on a
    worker exception its type and a textual traceback cross the process
    boundary and an exception of the original type is re-raised with the
    trace appended to the message. -/
theorem c5_processify_protocol {A B : Type}
    (f : A → Except (PyErr × String) B) (x : A) :
    ((processifyRun f x).1.take 4
        = [PEvent.start, PEvent.put, PEvent.get, PEvent.join])
    ∧ (∀ r, f x = .ok r →
        processifyRun f x
          = ([PEvent.start, PEvent.put, PEvent.get, PEvent.join,
              PEvent.returned], .ok (some r)))
    ∧ (∀ e tb, f x = .error (e, tb) →
        processifyRun f x
          = ([PEvent.start, PEvent.put, PEvent.get, PEvent.join,
              PEvent.raised],
             .error ⟨e.ty, e.msg ++ " (in subprocess)\n" ++ tb⟩)) := by
  refine ⟨?_, ?_, ?_⟩
  · rcases hf : f x with e | r
    · rcases e with ⟨e, tb⟩
      simp [processifyRun, process_func, hf]
    · simp [processifyRun, process_func, hf]
  · intro r hf
    simp [processifyRun, process_func, hf]
  · intro e tb hf
    simp [processifyRun, process_func, hf]

/-- C5 witness at a concrete failing worker call. -/
theorem c5_witness :
    ((fun _ : Nat =>
        (Except.error (⟨"ValueError", "bad"⟩, "Trace")
          : Except (PyErr × String) Nat)) 0
      = .error (⟨"ValueError", "bad"⟩, "Trace"))
    ∧ processifyRun
        (fun _ : Nat =>
          (Except.error (⟨"ValueError", "bad"⟩, "Trace")
            : Except (PyErr × String) Nat)) 0
      = ([PEvent.start, PEvent.put, PEvent.get, PEvent.join, PEvent.raised],
         .error ⟨"ValueError", "bad" ++ " (in subprocess)\n" ++ "Trace"⟩) :=
  ⟨rfl,
    (c5_processify_protocol
      (fun _ : Nat =>
        (Except.error (⟨"ValueError", "bad"⟩, "Trace")
          : Except (PyErr × String) Nat)) 0).2.2
      ⟨"ValueError", "bad"⟩ "Trace" rfl⟩

/-! Claim C1: error isolation across a batch of files. -/

/-- C1 counterexample: with files A, B, C where the denoising of B's channel
    raises, the source loop reports B's failure and then re-raises, so the
    exception escapes main_denoising: C is never processed and the batch
    terminates early, contrary to the claim. -/
theorem c1_counterexample :
    main_denoising_run
      (fun ch => if ch = "B0" then .error ⟨"RuntimeError", "boom"⟩ else .ok ())
      [("A", ["A0"]), ("B", ["B0"]), ("C", ["C0"])]
    = ([FEvent.chFinished "A0", FEvent.merged "A",
        FEvent.chErrorReported "B0"], some ⟨"RuntimeError", "boom"⟩)
    ∧ ∀ ev ∈ (main_denoising_run
        (fun ch =>
          if ch = "B0" then .error ⟨"RuntimeError", "boom"⟩ else .ok ())
        [("A", ["A0"]), ("B", ["B0"]), ("C", ["C0"])]).1,
        ev ≠ FEvent.chFinished "C0" ∧ ev ≠ FEvent.merged "C" := by
  constructor
  · simp [main_denoising_run, channel_loop]
  · intro ev hev
    simp [main_denoising_run, channel_loop] at hev
    rcases hev with h | h | h <;> subst h <;> exact ⟨by simp, by simp⟩

/-- C1 amended: when the worker raises while processing file B in the batch
    A, B, C, file A (processed before B) completes and its output is merged,
    B's failure is reported, and the exception is then re-raised, ending the
    batch: file C is never processed. -/
theorem c1_amended (denoise : String → Except PyErr Unit)
    (fa fb fc a b c : String) (e : PyErr)
    (ha : denoise a = .ok ()) (hb : denoise b = .error e) :
    main_denoising_run denoise [(fa, [a]), (fb, [b]), (fc, [c])]
      = ([FEvent.chFinished a, FEvent.merged fa, FEvent.chErrorReported b],
         some e) := by
  simp [main_denoising_run, channel_loop, ha, hb]

/-- C1 amended witness at a concrete batch. -/
theorem c1_amended_witness :
    ((fun ch =>
        if ch = "B0" then (Except.error ⟨"RuntimeError", "boom"⟩
          : Except PyErr Unit) else .ok ()) "A0" = .ok ())
    ∧ ((fun ch =>
        if ch = "B0" then (Except.error ⟨"RuntimeError", "boom"⟩
          : Except PyErr Unit) else .ok ()) "B0"
        = .error ⟨"RuntimeError", "boom"⟩)
    ∧ main_denoising_run
        (fun ch =>
          if ch = "B0" then (Except.error ⟨"RuntimeError", "boom"⟩
            : Except PyErr Unit) else .ok ())
        [("A", ["A0"]), ("B", ["B0"]), ("C", ["C0"])]
      = ([FEvent.chFinished "A0", FEvent.merged "A",
          FEvent.chErrorReported "B0"], some ⟨"RuntimeError", "boom"⟩) := by
  refine ⟨by simp, by simp, ?_⟩
  exact c1_amended _ "A" "B" "C" "A0" "B0" "C0" ⟨"RuntimeError", "boom"⟩
    (by simp) (by simp)

/-! Claim C7: the feature normalizer. -/

/-- C7: for every nonempty frame matrix with 257 columns and mean and
    variance vectors of length 257, the MVN step succeeds and produces a
    matrix of the same row count whose entries are
    (frames[i][j] - mean[j]) / variance[j], mean and variance being broadcast
    across all frames; the step is a pure function of its arguments. -/
theorem c7_normalizer (frames : Mat) (gmean gvar : List ℚ)
    (hne : frames ≠ [])
    (hrect : ∀ row ∈ frames, row.length = NFREQS)
    (hm : gmean.length = NFREQS) (hv : gvar.length = NFREQS) :
    ∃ normed, cmvnStep frames gmean gvar = some normed ∧
      normed.length = frames.length ∧
      ∀ i j, i < frames.length → j < NFREQS →
        get2 normed i j
          = (get2 frames i j - gmean.getD j 0) / gvar.getD j 0 := by
  obtain ⟨z1, hz1, hlen1, hrect1, hent1⟩ :=
    bcast2_rowvec (fun a b => a - b) frames gmean hne
      (fun row hrow => by rw [hrect row hrow, hm])
  have hz1ne : z1 ≠ [] := by
    intro h0
    rw [h0] at hlen1
    exact hne (List.length_eq_zero.mp hlen1.symm)
  obtain ⟨z2, hz2, hlen2, hrect2, hent2⟩ :=
    bcast2_rowvec (fun a b => a / b) z1 gvar hz1ne
      (fun row hrow => by rw [hrect1 row hrow, hm, hv])
  refine ⟨z2, ?_, by rw [hlen2, hlen1], ?_⟩
  · rw [cmvnStep, hz1, Option.some_bind, hz2]
  · intro i j hi hj
    rw [hent2 i j (by rw [hlen1]; exact hi) (by rw [hv]; exact hj),
      hent1 i j hi (by rw [hm]; exact hj)]

/-- C7 witness at a concrete one-frame matrix. -/
theorem c7_witness :
    (([List.replicate 257 (2 : ℚ)] : Mat) ≠ []
      ∧ (∀ row ∈ ([List.replicate 257 (2 : ℚ)] : Mat),
          row.length = NFREQS)
      ∧ (List.replicate 257 (0 : ℚ)).length = NFREQS
      ∧ (List.replicate 257 (1 : ℚ)).length = NFREQS)
    ∧ ∃ normed,
        cmvnStep [List.replicate 257 (2 : ℚ)] (List.replicate 257 0)
            (List.replicate 257 1) = some normed ∧
        normed.length = ([List.replicate 257 (2 : ℚ)] : Mat).length ∧
        ∀ i j, i < ([List.replicate 257 (2 : ℚ)] : Mat).length → j < NFREQS →
          get2 normed i j
            = (get2 [List.replicate 257 (2 : ℚ)] i j
                - (List.replicate 257 (0 : ℚ)).getD j 0)
              / (List.replicate 257 (1 : ℚ)).getD j 0 :=
  ⟨⟨by simp, by simp [NFREQS], by simp [NFREQS], by simp [NFREQS]⟩,
    c7_normalizer [List.replicate 257 (2 : ℚ)] (List.replicate 257 0)
      (List.replicate 257 1) (by simp) (by simp [NFREQS]) (by simp [NFREQS])
      (by simp [NFREQS])⟩

/-- Broadcasting two arrays of identical shape applies the operation
    entrywise. -/
theorem bcast2_same (op : ℚ → ℚ → ℚ) (x y : Mat)
    (hl : y.length = x.length) (hc : cols y = cols x) :
    ∃ z, bcast2 op x y = some z ∧ z.length = x.length ∧
      ∀ i j, i < x.length → j < cols x →
        get2 z i j = op (get2 x i j) (get2 y i j) := by
  have h1 : bcDim x.length y.length = some x.length := by
    rw [hl, bcDim_self]
  have h2 : bcDim (cols x) (cols y) = some (cols x) := by
    rw [hc, bcDim_self]
  refine ⟨_, bcast2_eq_some op x y h1 h2, by simp, ?_⟩
  intro i j hi hj
  rw [get2_mk _ hi hj, hl, hc]
  by_cases hx1 : x.length = 1 <;> by_cases hc1 : cols x = 1
  · have hi0 : i = 0 := by omega
    have hj0 : j = 0 := by omega
    simp [hx1, hc1, hi0, hj0]
  · have hi0 : i = 0 := by omega
    simp [hx1, hc1, hi0]
  · have hj0 : j = 0 := by omega
    simp [hx1, hc1, hj0]
  · simp [hx1, hc1]

/-- Entry of an elementwise mapped array. -/
theorem get2_map_map (g : ℚ → ℚ) (m : Mat) {i j : Nat}
    (hi : i < m.length) (hj : j < (m.getD i []).length) :
    get2 (m.map (List.map g)) i j = g (get2 m i j) := by
  have hmi : m.getD i [] = m[i] := List.getD_eq_getElem m [] hi
  have h1 : (m.map (List.map g)).getD i [] = List.map g m[i] := by
    rw [List.getD_eq_getElem _ _ (by simpa using hi)]
    simp
  rw [get2, get2, hmi, h1]
  rw [hmi] at hj
  rw [List.getD_eq_getElem _ _ hj,
    List.getD_eq_getElem _ _ (by simpa using hj)]
  simp

/-! Claim C6: log-domain masking with the original phase. -/

/-- C6: for a spectrally processed chunk whose mask has the frame matrix
    shape, the chunk output is the synthesis l2w applied to a masked matrix
    equal entrywise to the original unnormalized LPS frames plus the
    elementwise log of the mask, and to the original unmasked chunk temp,
    whose samples supply the phase; the normalized features N are used only
    to obtain the mask. -/
theorem c6_log_domain_masking (model : Mat → Mat) (lg : ℚ → ℚ)
    (w2l : List ℚ → Mat) (l2w : Mat → List ℚ → List ℚ)
    (gmean gvar : List ℚ) (tmp : String) (temp : List ℚ) (N : Mat)
    (h256 : ¬ temp.length < WL2)
    (hN : cmvnStep (w2l temp) gmean gvar = some N)
    (hlen : (model N).length = (w2l temp).length)
    (hcolsM : ∀ row ∈ model N, row.length = cols (w2l temp)) :
    ∃ masked, processChunk model lg w2l l2w gmean gvar tmp temp
        = .ok (l2w masked temp)
      ∧ masked.length = (w2l temp).length
      ∧ ∀ i j, i < (w2l temp).length → j < cols (w2l temp) →
          get2 masked i j
            = get2 (w2l temp) i j + lg (get2 (model N) i j) := by
  have hcolsY : cols ((model N).map (List.map lg)) = cols (w2l temp) := by
    rcases hMe : model N with _ | ⟨row, rest⟩
    · have h0 : (w2l temp).length = 0 := by rw [← hlen, hMe]; rfl
      have hFnil : w2l temp = [] := List.length_eq_zero.mp h0
      simp [hMe, hFnil, cols]
    · rw [cols_map_map]
      have hr := hcolsM row (by rw [hMe]; simp)
      simp [cols, hMe, hr]
  have hlenY : ((model N).map (List.map lg)).length = (w2l temp).length := by
    simp [hlen]
  obtain ⟨masked, hmask, hmlen, hment⟩ :=
    bcast2_same (fun a b => a + b) (w2l temp) ((model N).map (List.map lg))
      hlenY hcolsY
  have hm2 : maskLPS lg (w2l temp) (model N) = some masked := by
    rw [maskLPS]; exact hmask
  refine ⟨masked, ?_, hmlen, ?_⟩
  · simp [processChunk, h256, hN, lookupFile_single, hm2]
  · intro i j hi hj
    have hiM : i < (model N).length := by rw [hlen]; exact hi
    have hjM : j < ((model N).getD i []).length := by
      rw [List.getD_eq_getElem _ _ hiM,
        hcolsM ((model N)[i]) (by simp)]
      exact hj
    rw [hment i j hi hj, get2_map_map lg (model N) hiM hjM]

/-- C6 witness at a concrete one-frame chunk. -/
theorem c6_witness :
    ((¬ (List.replicate 256 (0 : ℚ)).length < WL2)
      ∧ cmvnStep ([[(1 : ℚ)]]) [0] [1] = some [[(1 : ℚ)]]
      ∧ (([[(1 : ℚ)]] : Mat).length = ([[(1 : ℚ)]] : Mat).length)
      ∧ (∀ row ∈ ([[(1 : ℚ)]] : Mat), row.length = cols [[(1 : ℚ)]]))
    ∧ ∃ masked,
        processChunk (fun _ => [[(1 : ℚ)]]) (fun x => x)
            (fun _ => [[(1 : ℚ)]]) (fun _ ref => ref) [0] [1] "t"
            (List.replicate 256 (0 : ℚ))
          = .ok ((fun _ ref => ref) masked (List.replicate 256 (0 : ℚ)))
        ∧ masked.length = (([[(1 : ℚ)]] : Mat)).length
        ∧ ∀ i j, i < (([[(1 : ℚ)]] : Mat)).length → j < cols [[(1 : ℚ)]] →
            get2 masked i j
              = get2 [[(1 : ℚ)]] i j + (fun x => x) (get2 [[(1 : ℚ)]] i j) := by
  have h256 : ¬ (List.replicate 256 (0 : ℚ)).length < WL2 := by
    simp [WL2, WL]
  have hN : cmvnStep ([[(1 : ℚ)]]) [0] [1] = some [[(1 : ℚ)]] := by
    simp [cmvnStep, bcast2, bcDim, cols, get2, List.range_succ, Function.comp]
  exact ⟨⟨h256, hN, rfl, by simp [cols]⟩,
    c6_log_domain_masking (fun _ => [[(1 : ℚ)]]) (fun x => x)
      (fun _ => [[(1 : ℚ)]]) (fun _ ref => ref) [0] [1] "t"
      (List.replicate 256 (0 : ℚ)) [[(1 : ℚ)]] h256 hN rfl (by simp [cols])⟩

/-! Helper lemmas about chunking and the chunk loop. -/

/-- Peak normalization keeps the sample count. -/
theorem peak_normalization_length (w : List ℚ) :
    (peak_normalization w).length = w.length := by
  rw [peak_normalization]
  split <;> simp

/-- Ceiling division of zero. -/
theorem ceilDiv_zero {L : Nat} (hL : 1 ≤ L) : ceilDiv 0 L = 0 := by
  rw [ceilDiv]
  exact Nat.div_eq_of_lt (by omega)

/-- Ceiling division of a positive numerator. -/
theorem ceilDiv_pos_eq {n L : Nat} (hn : 1 ≤ n) (hL : 1 ≤ L) :
    ceilDiv n L = (n - 1) / L + 1 := by
  rw [ceilDiv]
  have h : n + L - 1 = (n - 1) + L := by omega
  rw [h, Nat.add_div_right _ hL]

/-- Shifting chunk extraction by one chunk. -/
theorem chunkAt_succ (L : Nat) (w : List ℚ) (i : Nat) :
    chunkAt L w (i + 1) = chunkAt L (w.drop L) i := by
  rw [chunkAt, chunkAt, List.drop_drop]
  have h : (i + 1) * L = L + i * L := by ring
  rw [h]

/-- Decomposition of the chunk list of a nonempty waveform. -/
theorem chunksOf_cons {L : Nat} (hL : 1 ≤ L) {w : List ℚ} (hw : w ≠ []) :
    chunksOf L w = w.take L :: chunksOf L (w.drop L) := by
  have hn : 1 ≤ w.length := List.length_pos.mpr hw
  have hk : (w.length - 1) / L = ceilDiv (w.drop L).length L := by
    rw [List.length_drop]
    by_cases hnl : w.length ≤ L
    · have h1 : w.length - L = 0 := by omega
      rw [h1, ceilDiv_zero hL]
      exact Nat.div_eq_of_lt (by omega)
    · have h2 : 1 ≤ w.length - L := by omega
      rw [ceilDiv_pos_eq h2 hL]
      have h3 : w.length - 1 = (w.length - L - 1) + L := by omega
      rw [h3, Nat.add_div_right _ hL]
  have hfun : chunkAt L w ∘ Nat.succ = chunkAt L (w.drop L) := by
    funext i
    exact chunkAt_succ L w i
  calc chunksOf L w
      = (List.range ((w.length - 1) / L + 1)).map (chunkAt L w) := by
        rw [chunksOf, ceilDiv_pos_eq hn hL]
    _ = chunkAt L w 0
        :: ((List.range ((w.length - 1) / L)).map Nat.succ).map
          (chunkAt L w) := by
        rw [List.range_succ_eq_map]
        rfl
    _ = chunkAt L w 0
        :: (List.range ((w.length - 1) / L)).map (chunkAt L w ∘ Nat.succ) := by
        rw [List.map_map]
    _ = w.take L :: chunksOf L (w.drop L) := by
        rw [hfun, hk, chunksOf]
        simp [chunkAt]

/-- The chunks concatenate back to the waveform (bounded recursion). -/
theorem chunksOf_flatten_aux {L : Nat} (hL : 1 ≤ L) :
    ∀ (n : Nat) (w : List ℚ), w.length ≤ n → (chunksOf L w).flatten = w := by
  intro n
  induction n with
  | zero =>
    intro w hw
    have h0 : w = [] := List.length_eq_zero.mp (by omega)
    subst h0
    simp [chunksOf, ceilDiv_zero hL]
  | succ n ih =>
    intro w hw
    rcases eq_or_ne w [] with h | h
    · subst h
      simp [chunksOf, ceilDiv_zero hL]
    · rw [chunksOf_cons hL h, List.flatten_cons,
        ih (w.drop L) (by
          rw [List.length_drop]
          have := List.length_pos.mpr h
          omega),
        List.take_append_drop]

/-- The chunks concatenate back to the waveform. -/
theorem chunksOf_flatten {L : Nat} (hL : 1 ≤ L) (w : List ℚ) :
    (chunksOf L w).flatten = w :=
  chunksOf_flatten_aux hL w.length w le_rfl

/-- Every chunk except possibly the last has exactly L samples. -/
theorem chunkAt_length {L n i : Nat} {w : List ℚ} (hL : 1 ≤ L)
    (hw : w.length = n) (hi : i + 1 < ceilDiv n L) :
    (chunkAt L w i).length = L := by
  have h1 : i + 2 ≤ (n + L - 1) / L := by
    rw [ceilDiv] at hi
    omega
  have h2 : (i + 2) * L ≤ n + L - 1 :=
    (Nat.le_div_iff_mul_le (by omega)).mp h1
  have h3 : i * L + L ≤ n - 1 := by
    have hexp : (i + 2) * L = i * L + 2 * L := by ring
    omega
  rw [chunkAt, List.length_take, List.length_drop, hw]
  omega

/-- Chunk i read from the chunk list. -/
theorem chunksOf_getD {L i : Nat} {w : List ℚ}
    (hi : i < ceilDiv w.length L) :
    (chunksOf L w).getD i [] = (w.drop (i * L)).take L := by
  rw [chunksOf, getD_range_map _ _ hi, chunkAt]

/-- The lengths of the outputs of a successful chunk loop. -/
theorem runChunks_map_length (step : Nat → Except DErr (List ℚ))
    (tgt : Nat → Nat)
    (hs : ∀ i y, step i = .ok y → y.length = tgt i) :
    ∀ (l : List Nat) (ys : List (List ℚ)), runChunks step l = .ok ys →
      ys.map List.length = l.map tgt := by
  intro l
  induction l with
  | nil =>
    intro ys h
    simp only [runChunks] at h
    cases h
    rfl
  | cons a t ih =>
    intro ys h
    simp only [runChunks] at h
    cases ha : step a with
    | error e => rw [ha] at h; cases h
    | ok y =>
      rw [ha] at h
      cases hr : runChunks step t with
      | error e => rw [hr] at h; cases h
      | ok ys2 =>
        rw [hr] at h
        cases h
        simp only [List.map_cons]
        rw [hs a y ha, ih ys2 hr]

/-- A successful chunk keeps its sample count, assuming the synthesis
    component keeps the reference length (the spec contract of
    utils.logspec2wav). -/
theorem processChunk_ok_length {model : Mat → Mat} {lg : ℚ → ℚ}
    {w2l : List ℚ → Mat} {l2w : Mat → List ℚ → List ℚ}
    {gmean gvar : List ℚ} {tmp : String} {temp y : List ℚ}
    (hlen : ∀ m ref, (l2w m ref).length = ref.length)
    (h : processChunk model lg w2l l2w gmean gvar tmp temp = .ok y) :
    y.length = temp.length := by
  by_cases hs : temp.length < WL2
  · simp only [processChunk, if_pos hs, Except.ok.injEq] at h
    rw [← h]
  · rcases hc : cmvnStep (w2l temp) gmean gvar with _ | N
    · simp [processChunk, hs, hc] at h
    · rcases hm : maskLPS lg (w2l temp) (model N) with _ | masked
      · simp [processChunk, hs, hc, lookupFile_single, hm] at h
      · simp [processChunk, hs, hc, lookupFile_single, hm] at h
        rw [← h, hlen]

/-! Claim C4: chunk boundary determinism and concatenation length. -/

/-- C4 counterexample: the claim takes chunk_length = T*60*sample_rate, but
    the source truncates with int().  With T = 21/1920000 minutes at 16 kHz,
    T*60*16000 = 10.5, the source chunk length is 10, and a 21 sample
    waveform yields 3 chunks, not ceil(21 / 10.5) = 2 as the claim computes;
    the non-final chunks have 10 samples, not 10.5. -/
theorem c4_counterexample :
    ((21 : ℚ) / ((21 / 1920000 : ℚ) * 16000 * 60) = 2)
    ∧ chunkLength (21 / 1920000) 16000 = 10
    ∧ (chunksOf (chunkLength (21 / 1920000) 16000)
        (List.replicate 21 (0 : ℚ))).length = 3
    ∧ (chunksOf (chunkLength (21 / 1920000) 16000)
        (List.replicate 21 (0 : ℚ))).length ≠ 2 := by
  have hcl : chunkLength (21 / 1920000) 16000 = 10 := by
    rw [chunkLength_eq_floor]
    norm_num
    rfl
  refine ⟨by norm_num, hcl, ?_, ?_⟩ <;>
    simp [hcl, chunksOf, ceilDiv]

/-- C4 amended: with the truncated chunk length L = int(T*rate*60) ≥ 1 and
    pw the peak-normalized waveform, the pipeline produces
    ceil(|pw| / L) = ceil(|wav| / L) chunks; every chunk except possibly the
    last has exactly L samples; chunk i (0-based) holds pw samples
    [i*L, (i+1)*L); and a successful output has as many samples as the sum
    of all chunk lengths, which equals the peak-normalized input's sample
    count, which equals the input's sample count.  The synthesis component
    is assumed to keep the reference length, the spec contract of
    utils.logspec2wav. -/
theorem c4_amended (model : Mat → Mat) (lg : ℚ → ℚ) (w2l : List ℚ → Mat)
    (l2w : Mat → List ℚ → List ℚ) (gmean gvar : List ℚ) (tmpf : Nat → String)
    (T : ℚ) (rate : Nat) (wav : List ℚ)
    (hL : 1 ≤ chunkLength T rate)
    (hlen : ∀ m ref, (l2w m ref).length = ref.length) :
    ((chunksOf (chunkLength T rate) (peak_normalization wav)).length
        = ceilDiv wav.length (chunkLength T rate))
    ∧ (∀ i, i + 1 < ceilDiv wav.length (chunkLength T rate) →
        ((chunksOf (chunkLength T rate)
            (peak_normalization wav)).getD i []).length
          = chunkLength T rate)
    ∧ (∀ i, i < ceilDiv wav.length (chunkLength T rate) →
        (chunksOf (chunkLength T rate) (peak_normalization wav)).getD i []
          = ((peak_normalization wav).drop (i * chunkLength T rate)).take
              (chunkLength T rate))
    ∧ ∀ out,
        denoise_wav model lg w2l l2w gmean gvar tmpf T rate wav = .ok out →
        out.length
            = ((chunksOf (chunkLength T rate)
                (peak_normalization wav)).map List.length).sum
          ∧ out.length = wav.length := by
  have hpw : (peak_normalization wav).length = wav.length :=
    peak_normalization_length wav
  refine ⟨by simp [chunksOf, hpw], ?_, ?_, ?_⟩
  · intro i hi
    rw [chunksOf_getD (by rw [hpw]; omega)]
    exact chunkAt_length hL hpw hi
  · intro i hi
    exact chunksOf_getD (by rw [hpw]; exact hi)
  · intro out hout
    have hL0 : ¬ chunkLength T rate = 0 := by omega
    simp only [denoise_wav, if_neg hL0] at hout
    cases hrun : runChunks
        (fun i => processChunk model lg w2l l2w gmean gvar (tmpf i)
          (chunkAt (chunkLength T rate) (peak_normalization wav) i))
        (List.range
          (ceilDiv (peak_normalization wav).length (chunkLength T rate))) with
    | error e => rw [hrun] at hout; cases hout
    | ok data_se =>
      rw [hrun] at hout
      dsimp only at hout
      rcases hemp : data_se.isEmpty with _ | _
      · rw [hemp] at hout
        simp only [Bool.false_eq_true, if_false, Except.ok.injEq] at hout
        have hmaps : data_se.map List.length
            = (List.range (ceilDiv (peak_normalization wav).length
                (chunkLength T rate))).map
              (fun i => (chunkAt (chunkLength T rate)
                (peak_normalization wav) i).length) :=
          runChunks_map_length _ _
            (fun i y hy => processChunk_ok_length hlen hy) _ _ hrun
        have hsum : out.length = (data_se.map List.length).sum := by
          rw [← hout, List.length_flatten, List.map_map]
          congr 1
          simp [Function.comp]
        have hA : (chunksOf (chunkLength T rate)
            (peak_normalization wav)).map List.length
              = data_se.map List.length := by
          rw [chunksOf, List.map_map, hmaps]
          rfl
        have hflat : ((chunksOf (chunkLength T rate)
            (peak_normalization wav)).map List.length).sum
              = (peak_normalization wav).length := by
          rw [← List.length_flatten, chunksOf_flatten hL]
        constructor
        · rw [hA]
          exact hsum
        · calc out.length = (data_se.map List.length).sum := hsum
            _ = ((chunksOf (chunkLength T rate)
                (peak_normalization wav)).map List.length).sum := by rw [hA]
            _ = (peak_normalization wav).length := hflat
            _ = wav.length := hpw
      · rw [hemp] at hout
        simp at hout

/-- A positive rational product gives a positive truncated chunk length. -/
theorem one_le_chunkLength {T : ℚ} {rate : Nat}
    (h : (1 : ℚ) ≤ T * rate * 60) : 1 ≤ chunkLength T rate := by
  rw [chunkLength_eq_floor]
  have h1 : (1 : ℤ) ≤ ⌊T * rate * 60⌋ := by
    rw [Int.le_floor]
    exact_mod_cast h
  omega

/-- C4 amended witness at a concrete short waveform. -/
theorem c4_amended_witness :
    (1 ≤ chunkLength 1 1
      ∧ ∀ (m : Mat) (ref : List ℚ),
          ((fun (_ : Mat) (ref : List ℚ) => ref) m ref).length = ref.length)
    ∧ (((chunksOf (chunkLength 1 1)
          (peak_normalization [1, 2, 3])).length
        = ceilDiv ([(1 : ℚ), 2, 3]).length (chunkLength 1 1))
      ∧ (∀ i, i + 1 < ceilDiv ([(1 : ℚ), 2, 3]).length (chunkLength 1 1) →
          ((chunksOf (chunkLength 1 1)
              (peak_normalization [1, 2, 3])).getD i []).length
            = chunkLength 1 1)
      ∧ (∀ i, i < ceilDiv ([(1 : ℚ), 2, 3]).length (chunkLength 1 1) →
          (chunksOf (chunkLength 1 1)
              (peak_normalization [1, 2, 3])).getD i []
            = ((peak_normalization [1, 2, 3]).drop
                (i * chunkLength 1 1)).take (chunkLength 1 1))
      ∧ ∀ out,
          denoise_wav (fun m => m) (fun x => x) (fun _ => [[(1 : ℚ)]])
              (fun _ ref => ref) [0] [1] (fun _ => "t") 1 1 [1, 2, 3]
            = .ok out →
          out.length
              = ((chunksOf (chunkLength 1 1)
                  (peak_normalization [1, 2, 3])).map List.length).sum
            ∧ out.length = ([(1 : ℚ), 2, 3]).length) := by
  have hL : 1 ≤ chunkLength 1 1 := by
    apply one_le_chunkLength
    push_cast
    norm_num
  exact ⟨⟨hL, fun m ref => rfl⟩,
    c4_amended (fun m => m) (fun x => x) (fun _ => [[(1 : ℚ)]])
      (fun _ ref => ref) [0] [1] (fun _ => "t") 1 1 [1, 2, 3] hL
      (fun m ref => rfl)⟩

/-! Claim C8: the pipeline introduces no randomness of its own. -/

/-- The chunk body does not depend on the temporary directory name: the
    features written under the fresh directory are read back through the
    same constructed path. -/
theorem processChunk_tmp_irrelevant (model : Mat → Mat) (lg : ℚ → ℚ)
    (w2l : List ℚ → Mat) (l2w : Mat → List ℚ → List ℚ)
    (gmean gvar : List ℚ) (t1 t2 : String) (temp : List ℚ) :
    processChunk model lg w2l l2w gmean gvar t1 temp
      = processChunk model lg w2l l2w gmean gvar t2 temp := by
  by_cases hs : temp.length < WL2
  · simp [processChunk, hs]
  · rcases hc : cmvnStep (w2l temp) gmean gvar with _ | N
    · simp [processChunk, hs, hc]
    · rcases hm : maskLPS lg (w2l temp) (model N) with _ | masked <;>
        simp [processChunk, hs, hc, lookupFile_single, hm]

/-- Pointwise equal chunk steps run identically. -/
theorem runChunks_congr {f g : Nat → Except DErr (List ℚ)}
    (l : List Nat) (h : ∀ i ∈ l, f i = g i) :
    runChunks f l = runChunks g l := by
  induction l with
  | nil => rfl
  | cons a t ih =>
    simp only [runChunks]
    rw [h a (by simp), ih (fun i hi => h i (by simp [hi]))]

/-- C8: the output of denoise_wav is a function of the waveform, the global
    statistics, the options and the (deterministic) components alone: the
    only run-to-run varying ambient input, the fresh temporary directory
    names drawn by mkdtemp each chunk, does not influence the result, so two
    runs on the same input produce identical outputs. -/
theorem c8_determinism (model : Mat → Mat) (lg : ℚ → ℚ)
    (w2l : List ℚ → Mat) (l2w : Mat → List ℚ → List ℚ)
    (gmean gvar : List ℚ) (tmpf1 tmpf2 : Nat → String) (T : ℚ) (rate : Nat)
    (wav : List ℚ) :
    denoise_wav model lg w2l l2w gmean gvar tmpf1 T rate wav
      = denoise_wav model lg w2l l2w gmean gvar tmpf2 T rate wav := by
  have hrun : runChunks
      (fun i => processChunk model lg w2l l2w gmean gvar (tmpf1 i)
        (chunkAt (chunkLength T rate) (peak_normalization wav) i))
      (List.range
        (ceilDiv (peak_normalization wav).length (chunkLength T rate)))
    = runChunks
      (fun i => processChunk model lg w2l l2w gmean gvar (tmpf2 i)
        (chunkAt (chunkLength T rate) (peak_normalization wav) i))
      (List.range
        (ceilDiv (peak_normalization wav).length (chunkLength T rate))) :=
    runChunks_congr _ (fun i _ =>
      processChunk_tmp_irrelevant model lg w2l l2w gmean gvar (tmpf1 i)
        (tmpf2 i) _)
  simp only [denoise_wav]
  rw [hrun]

/-! Claim C9: a fractional chunk length of zero. -/

/-- C9: for positive truncate_minutes with T*rate*60 < 1 the int() truncated
    chunk length is 0 and denoise_wav raises ZeroDivisionError computing the
    chunk count, for any input; defined behavior needs T*rate*60 ≥ 1, which
    indeed makes the chunk length positive, a strictly stronger precondition
    than the configuration surface's T > 0. -/
theorem c9_zero_chunk_length :
    (∀ (T : ℚ) (rate : Nat), 0 < T → T * rate * 60 < 1 →
      chunkLength T rate = 0
      ∧ ∀ (model : Mat → Mat) (lg : ℚ → ℚ) (w2l : List ℚ → Mat)
          (l2w : Mat → List ℚ → List ℚ) (gmean gvar : List ℚ)
          (tmpf : Nat → String) (wav : List ℚ),
          denoise_wav model lg w2l l2w gmean gvar tmpf T rate wav
            = .error .zeroDivisionError)
    ∧ ∀ (T : ℚ) (rate : Nat), (1 : ℚ) ≤ T * rate * 60 →
        1 ≤ chunkLength T rate := by
  constructor
  · intro T rate hT hlt
    have hnn : (0 : ℚ) ≤ T * rate * 60 :=
      mul_nonneg (mul_nonneg hT.le (Nat.cast_nonneg rate)) (by norm_num)
    have hfl : ⌊T * rate * 60⌋ = 0 := by
      rw [Int.floor_eq_zero_iff]
      exact Set.mem_Ico.mpr ⟨hnn, hlt⟩
    have h0 : chunkLength T rate = 0 := by
      rw [chunkLength_eq_floor, hfl]
      rfl
    exact ⟨h0, fun model lg w2l l2w gmean gvar tmpf wav => by
      simp [denoise_wav, h0]⟩
  · intro T rate h
    exact one_le_chunkLength h

/-- C9 witness at T = 1/1000000 minutes, 16 kHz (0.96 samples, truncated to
    0) and at T = 10 minutes. -/
theorem c9_witness :
    ((0 : ℚ) < 1 / 1000000
      ∧ (1 / 1000000 : ℚ) * (16000 : ℕ) * 60 < 1
      ∧ chunkLength (1 / 1000000) 16000 = 0
      ∧ denoise_wav (fun m => m) (fun x => x) (fun _ => [[(1 : ℚ)]])
          (fun _ ref => ref) [0] [1] (fun _ => "t") (1 / 1000000) 16000 [1, 2]
        = .error .zeroDivisionError)
    ∧ ((1 : ℚ) ≤ (10 : ℚ) * (16000 : ℕ) * 60
      ∧ 1 ≤ chunkLength 10 16000) := by
  have h1 : (0 : ℚ) < 1 / 1000000 := by norm_num
  have h2 : (1 / 1000000 : ℚ) * (16000 : ℕ) * 60 < 1 := by
    push_cast
    norm_num
  have h3 : (1 : ℚ) ≤ (10 : ℚ) * (16000 : ℕ) * 60 := by
    push_cast
    norm_num
  obtain ⟨ha, hb⟩ := c9_zero_chunk_length.1 (1 / 1000000) 16000 h1 h2
  exact ⟨⟨h1, h2, ha,
      hb (fun m => m) (fun x => x) (fun _ => [[(1 : ℚ)]]) (fun _ ref => ref)
        [0] [1] (fun _ => "t") [1, 2]⟩,
    ⟨h3, c9_zero_chunk_length.2 10 16000 h3⟩⟩

/-! Claim C10: the empty input waveform. -/

/-- C10: a zero-length waveform yields zero chunks and denoise_wav fails at
    the concatenation of the empty chunk list (np.concatenate raises), so an
    empty input never produces an output file: it is an error at the
    denoise_wav interface. -/
theorem c10_empty_input (model : Mat → Mat) (lg : ℚ → ℚ)
    (w2l : List ℚ → Mat) (l2w : Mat → List ℚ → List ℚ)
    (gmean gvar : List ℚ) (tmpf : Nat → String) (T : ℚ) (rate : Nat)
    (hL : 1 ≤ chunkLength T rate) :
    chunksOf (chunkLength T rate) (peak_normalization []) = []
    ∧ denoise_wav model lg w2l l2w gmean gvar tmpf T rate []
        = .error .concatEmpty := by
  have hL0 : ¬ chunkLength T rate = 0 := by omega
  have hpn : peak_normalization ([] : List ℚ) = [] := by
    simp [peak_normalization]
  constructor
  · rw [hpn]
    simp [chunksOf, ceilDiv_zero hL]
  · simp only [denoise_wav, if_neg hL0, hpn]
    simp [ceilDiv_zero hL, runChunks, List.range_zero]

/-- C10 witness at T = 10 minutes, 16 kHz. -/
theorem c10_witness :
    1 ≤ chunkLength 10 16000
    ∧ (chunksOf (chunkLength 10 16000) (peak_normalization []) = []
      ∧ denoise_wav (fun m => m) (fun x => x) (fun _ => [[(1 : ℚ)]])
          (fun _ ref => ref) [0] [1] (fun _ => "t") 10 16000 []
        = .error .concatEmpty) := by
  have hL : 1 ≤ chunkLength 10 16000 := by
    apply one_le_chunkLength
    push_cast
    norm_num
  exact ⟨hL, c10_empty_input (fun m => m) (fun x => x) (fun _ => [[(1 : ℚ)]])
    (fun _ ref => ref) [0] [1] (fun _ => "t") 10 16000 hL⟩

end Denoising
